import Mathlib

/-!
Shallow embedding of the `derp` library (`derp.go`): a deferred-execution,
reusable data-processing pipeline.  Pure values stand for Go slices, the
builder state is passed explicitly, and `Apply` is modelled as a total
function returning an `Except`-style result together with the post-call
builder state and the trace of executed instruction records.

Machine `int` arguments that the code compares against `1` (Skip/Take
registration) are modelled as `Int`; counts that are only ever sizes are
`Nat`.  The worker-pool arithmetic `int(math.Ceil(float64(numProcs) * m))`
with `m ∈ {0.25, 0.5, 0.75, 1.0}` is exact in binary floating point for
realistic processor counts, so it is embedded as the ceiling division
`(numProcs * num + den - 1) / den`.
-/

namespace Derp

/-- The `Option` byte constants of `derp.go` (named `Opt` here to avoid the
clash with Lean's `Option`). -/
inductive Opt : Type where
  | Opt_NoCopy
  | Opt_Clone
  | Opt_DPC
  | Opt_CFE
  | Opt_Power25
  | Opt_Power50
  | Opt_Power75
  | Opt_Reset
deriving DecidableEq, Repr

open Opt

/-- The `order` record of `derp.go`: an instruction tag, the slot of its
closure inside its own kind's registration list, and free-form comments. -/
structure Order : Type where
  method : String
  index : Nat
  comments : List String
deriving DecidableEq, Repr, Inhabited

/-- The `Pipeline[T]` struct of `derp.go`: per-kind closure lists plus the
declaration-ordered `orders` list. -/
structure Pipeline (T : Type) : Type where
  filterInstructs : List (T → Bool) := []
  foreachInstructs : List (T → Unit) := []
  mapInstructs : List (Nat → T → T) := []
  reduceInstruct : Option (T → T → T) := none
  skipCounts : List Int := []
  takeCounts : List Int := []
  orders : List Order := []

variable {T : Type}

/-- The Go zero value of `Pipeline[T]` (`var pipe Pipeline[T]`). -/
def emptyPipeline : Pipeline T := {}

/-- `func (pipeline *Pipeline[T]) Filter(in func(value T) bool, comments ...string)`. -/
def Pipeline.Filter (p : Pipeline T) (f : T → Bool) (comments : List String := []) :
    Pipeline T :=
  { p with
    filterInstructs := p.filterInstructs ++ [f]
    orders := p.orders ++ [⟨"filter", p.filterInstructs.length, comments⟩] }

/-- `func (pipeline *Pipeline[T]) Foreach(in func(value T), comments ...string)`. -/
def Pipeline.Foreach (p : Pipeline T) (f : T → Unit) (comments : List String := []) :
    Pipeline T :=
  { p with
    foreachInstructs := p.foreachInstructs ++ [f]
    orders := p.orders ++ [⟨"foreach", p.foreachInstructs.length, comments⟩] }

/-- `func (pipeline *Pipeline[T]) Map(in func(index int, value T) T, comments ...string)`. -/
def Pipeline.Map (p : Pipeline T) (f : Nat → T → T) (comments : List String := []) :
    Pipeline T :=
  { p with
    mapInstructs := p.mapInstructs ++ [f]
    orders := p.orders ++ [⟨"map", p.mapInstructs.length, comments⟩] }

/-- `func (pipeline *Pipeline[T]) Reduce(in func(acc T, value T) T, comments ...string) error`.
Returns the new builder state together with the Go error value. -/
def Pipeline.Reduce (p : Pipeline T) (f : T → T → T) (comments : List String := []) :
    Pipeline T × Option String :=
  if p.reduceInstruct.isSome then
    (p, some "Reduce has already been set")
  else
    ({ p with
        reduceInstruct := some f
        orders := p.orders ++ [⟨"reduce", 0, comments⟩] }, none)

/-- `func (pipeline *Pipeline[T]) Skip(n int) error`. -/
def Pipeline.Skip (p : Pipeline T) (n : Int) : Pipeline T × Option String :=
  if n < 1 then
    (p, some ("Skip(" ++ toString n ++ "): No order submitted"))
  else
    ({ p with
        skipCounts := p.skipCounts ++ [n]
        orders := p.orders ++
          [⟨"skip", p.skipCounts.length, ["skip(" ++ toString n ++ ")"]⟩] }, none)

/-- `func (pipeline *Pipeline[T]) Take(n int) error`. -/
def Pipeline.Take (p : Pipeline T) (n : Int) : Pipeline T × Option String :=
  if n < 1 then
    (p, some ("Take(" ++ toString n ++ "): No order submitted"))
  else
    ({ p with
        takeCounts := p.takeCounts ++ [n]
        orders := p.orders ++
          [⟨"take", p.takeCounts.length, ["take(" ++ toString n ++ ")"]⟩] }, none)

/-- The Go loop inside `Apply` that finds the first `"reduce"` order, removes
it, and remembers it: `append(orders[:idx], orders[idx+1:]...)` plus the saved
`ord`.  Returns the remaining list and the removed record, if any. -/
def removeFirstReduce : List Order → List Order × Option Order
  | [] => ([], none)
  | o :: rest =>
    if o.method = "reduce" then (rest, some o)
    else
      let r := removeFirstReduce rest
      (o :: r.1, r.2)

/-- Move the first `"reduce"` order to the end of the list (no-op when there
is none), as performed by Step 0 of `Apply`. -/
def moveReduceLast (orders : List Order) : List Order :=
  match removeFirstReduce orders with
  | (l, some o) => l ++ [o]
  | (_, none) => orders

/-- Step 0 of `Apply` (derp.go lines 180-189): reposition the reduce order to
the end when a reduce closure is registered and the last order is not already
`"reduce"`. -/
def applyReposition (p : Pipeline T) : Pipeline T :=
  if p.reduceInstruct.isSome = true ∧ p.orders.getLast?.map Order.method ≠ some "reduce" then
    { p with orders := moveReduceLast p.orders }
  else p

/-- `func hasMultipleOpts(in []Option, targets ...Option) bool` — counts how
many of the `targets` occur in `in`, true when at least two do. -/
def hasMultipleOpts (opts targets : List Opt) : Bool :=
  decide (2 ≤ targets.countP (fun t => opts.contains t))

/-- The three clone-policy flags, as passed to the first `hasMultipleOpts`
call in `Apply`. -/
def cloneCat : List Opt := [Opt_NoCopy, Opt_Clone, Opt_DPC]

/-- The three power-throttle flags, as passed to the second `hasMultipleOpts`
call in `Apply`. -/
def powerCat : List Opt := [Opt_Power25, Opt_Power50, Opt_Power75]

/-- Clone-policy defaulting of `Apply` (derp.go lines 199-210): when no clone
flag is explicit, append `Opt_Clone` for slice/map/pointer/struct element
kinds (`isRefKind = true`) and `Opt_NoCopy` otherwise.  The reflective kind
inspection is abstracted into the boolean parameter. -/
def resolveCloneDefault (isRefKind : Bool) (options : List Opt) : List Opt :=
  if options.contains Opt_DPC || options.contains Opt_NoCopy || options.contains Opt_Clone
  then options
  else options ++ [if isRefKind then Opt_Clone else Opt_NoCopy]

/-- Modelled from the spec: `clone.Clone` from the external go-clone library
performs a structural deep copy, producing a sequence equal in value to its
argument.  In this value-level model a deep copy of an immutable value is the
value itself; the aliasing consequences of cloning are modelled separately by
the store semantics below. -/
def cloneValue (l : List T) : List T := l

/-- Modelled from the spec: `clone.Slowly` (cycle-safe deep copy) also yields
a value-equal sequence in the value-level model. -/
def cloneSlowlyValue (l : List T) : List T := l

/-- One arm of the working-set materialization switch of `Apply`
(derp.go lines 214-223). -/
def materializeStep (input : List T) (ws : List T) (opt : Opt) : List T :=
  match opt with
  | Opt_NoCopy => input
  | Opt_Clone => cloneValue input
  | Opt_DPC => cloneSlowlyValue input
  | _ => ws

/-- Working-set materialization loop of `Apply` (derp.go lines 212-223):
`var workingSlice []T` then one switch per option, the last clone-policy flag
encountered winning. -/
def materialize (opts : List Opt) (input : List T) : List T :=
  opts.foldl (materializeStep input) []

/-- Throttle selection loop of `Apply` (derp.go lines 225-235), returning the
multiplier as an exact rational `(numerator, denominator)`; the last power
flag encountered wins, defaulting to `1.0`. -/
def throttleFrac (opts : List Opt) : Nat × Nat :=
  opts.foldl
    (fun td opt =>
      match opt with
      | Opt_Power25 => (1, 4)
      | Opt_Power50 => (1, 2)
      | Opt_Power75 => (3, 4)
      | _ => td)
    (1, 1)

/-- `numWorkers := int(math.Ceil(float64(runtime.GOMAXPROCS(0)) * throttleMult))`
(derp.go line 238): exact ceiling division since the multiplier is a small
dyadic rational. -/
def numWorkers (numProcs : Nat) (opts : List Opt) : Nat :=
  let td := throttleFrac opts
  (numProcs * td.1 + td.2 - 1) / td.2

/-- The contiguous chunk handed to worker `idx`: `workingSlice[start:end]`
with `end = min(start+chunkSize, len(workingSlice))`, and the empty chunk for
workers whose `start` is past the end (derp.go lines 252-263). -/
def workerChunk (ws : List T) (start c : Nat) : List T :=
  (ws.drop start).take c

/-- The `"filter"` case of `Apply` (derp.go lines 245-292): each worker keeps
the elements of its chunk satisfying the predicate in chunk order, and the
per-worker kept-lists are concatenated in worker-index order. -/
def filterStep (f : T → Bool) (ws : List T) (c n : Nat) : List T :=
  ((List.range n).map (fun i => (workerChunk ws (i * c) c).filter f)).flatten

/-- The `"map"` case of `Apply` (derp.go lines 330-355): each worker rewrites
its chunk in place via `c[i] = workOrder(start+i, c[i])`.  The backing array
after the disjoint writes is the concatenation of the rewritten chunks plus
the (always empty in `Apply`, where `n*c ≥ len`) untouched tail. -/
def mapStep (f : Nat → T → T) (ws : List T) (c n : Nat) : List T :=
  ((List.range n).map
      (fun i => ((workerChunk ws (i * c) c).enum.map (fun v => f (i * c + v.1) v.2)))).flatten
    ++ ws.drop (n * c)

/-- The `"skip"` case of `Apply` (derp.go lines 371-378): clamp to the empty
working set when the count exceeds the current length, else drop the prefix. -/
def skipStep (n : Int) (ws : List T) : List T :=
  if n > (ws.length : Int) then [] else ws.drop n.toNat

/-- The `"take"` case of `Apply` (derp.go lines 380-386): truncate only when
the count is strictly below the current length, else leave the working set
whole. -/
def takeStep (n : Int) (ws : List T) : List T :=
  if n < (ws.length : Int) then ws.take n.toNat else ws

/-- One iteration of the instruction loop of `Apply` (derp.go lines 243-392)
for a single order record: the new working set plus an early-exit flag, true
exactly when the `"reduce"` case returns `[]T{}, nil` on an empty working
set.  `chunkSize` is recomputed from the current working set, matching the
redistribution at the end of every loop iteration.  Out-of-range closure
indices (impossible for API-built pipelines) fall back to inert closures;
`Foreach` never changes the working set so its (sequential or concurrent)
dispatch is the identity here. -/
def stepOrder (p : Pipeline T) (nw : Nat) (o : Order) (ws : List T) : List T × Bool :=
  let cs := (ws.length + nw - 1) / nw
  if o.method = "filter" then
    (filterStep (p.filterInstructs.getD o.index (fun _ => false)) ws cs nw, false)
  else if o.method = "foreach" then
    (ws, false)
  else if o.method = "map" then
    (mapStep (p.mapInstructs.getD o.index (fun _ v => v)) ws cs nw, false)
  else if o.method = "reduce" then
    match p.reduceInstruct with
    | some f =>
      match ws with
      | [] => ([], true)
      | a :: rest => ([rest.foldl f a], false)
    | none => (ws, false)
  else if o.method = "skip" then
    (skipStep (p.skipCounts.getD o.index 0) ws, false)
  else if o.method = "take" then
    (takeStep (p.takeCounts.getD o.index 0) ws, false)
  else
    (ws, false)

/-- The instruction loop of `Apply`: final working set, trace of the order
records iterated (in execution sequence), and whether the loop ended with the
reduce-on-empty early return. -/
def runOrders (p : Pipeline T) (nw : Nat) : List Order → List T → List T × List Order × Bool
  | [], ws => (ws, [], false)
  | o :: rest, ws =>
    let s := stepOrder p nw o ws
    if s.2 then (s.1, [o], true)
    else
      let r := runOrders p nw rest s.1
      (r.1, o :: r.2.1, r.2.2)

/-- The `Opt_Reset` block of `Apply` (derp.go lines 394-402): clear every
registration list, returning the builder to its zero value. -/
def resetPipeline (_ : Pipeline T) : Pipeline T := emptyPipeline

/-- `func (pipeline *Pipeline[T]) Apply(input []T, options ...Option) ([]T, error)`
(derp.go lines 174-405).  `isRefKind` abstracts `reflect.TypeOf(input[0]).Kind()`
being slice/map/pointer/struct; `numProcs` abstracts `runtime.GOMAXPROCS(0)`.
Returns the Go result, the builder state after the call (the receiver is
mutated by Step 0 repositioning and by `Opt_Reset`), and the trace of
executed order records. -/
def Pipeline.Apply (p : Pipeline T) (isRefKind : Bool) (input : List T)
    (options : List Opt) (numProcs : Nat) :
    Except String (List T) × Pipeline T × List Order :=
  if input.length < 1 then
    (.error "empty input slice", p, [])
  else
    let p1 := applyReposition p
    if hasMultipleOpts options cloneCat then
      (.error "cannot invoke multiple cloning options", p1, [])
    else if hasMultipleOpts options powerCat then
      (.error "cannot invoke multiple power throttling options", p1, [])
    else
      let opts := resolveCloneDefault isRefKind options
      let ws0 := materialize opts input
      let nw := numWorkers numProcs opts
      let r := runOrders p1 nw p1.orders ws0
      let p2 := if r.2.2 = false ∧ opts.contains Opt_Reset then resetPipeline p1 else p1
      (.ok r.1, p2, r.2.1)

/-- In store semantics (for the structural-clone frame contract): read the
values behind a list of references. -/
def readRefs {V : Type} (store : List V) (refs : List Nat) (dflt : V) : List V :=
  refs.map (fun a => store.getD a dflt)

/-- Modelled from the spec: `clone.Clone` of the external go-clone library
under the structural-clone policy, in store semantics — fresh cells are
allocated past the end of the caller's store, holding copies of the data the
input references point to, and the working set becomes the list of fresh
addresses. -/
def cloneRefs {V : Type} (store : List V) (input : List Nat) (dflt : V) :
    List V × List Nat :=
  (store ++ readRefs store input dflt,
   (List.range input.length).map (fun i => store.length + i))

/-- The in-place `"map"` rewrite of `Apply` (derp.go lines 330-355) in store
semantics: the transform mutates the value behind each working-set reference
(`c[i] = workOrder(start+i, c[i])` writes each cell exactly once, so the
chunked dispatch over disjoint ranges equals this fold over the refs). -/
def mapMutateStore {V : Type} (g : V → V) (refs : List Nat) (store : List V)
    (dflt : V) : List V :=
  refs.foldl (fun s a => s.set a (g (s.getD a dflt))) store

/-! ## Supporting lemmas -/

theorem le_mul_ceilDiv (a n : Nat) (h : 1 ≤ n) : a ≤ n * ((a + n - 1) / n) := by
  have h1 := Nat.div_add_mod (a + n - 1) n
  have h2 : (a + n - 1) % n < n := Nat.mod_lt _ (by omega)
  omega

theorem workerChunk_zero (ws : List T) (c : Nat) : workerChunk ws 0 c = ws.take c := by
  simp [workerChunk]

theorem workerChunk_succ_mul (ws : List T) (c i : Nat) :
    workerChunk ws ((i + 1) * c) c = workerChunk (ws.drop c) (i * c) c := by
  simp only [workerChunk, List.drop_drop]
  have : c + i * c = (i + 1) * c := by ring
  rw [this]

theorem filterStep_eq_filter (f : T → Bool) (n : Nat) :
    ∀ ws : List T, ∀ c : Nat, ws.length ≤ n * c → filterStep f ws c n = ws.filter f := by
  induction n with
  | zero =>
    intro ws c h
    have hws : ws = [] := by
      cases ws with
      | nil => rfl
      | cons a l => simp at h
    subst hws
    simp [filterStep]
  | succ n ih =>
    intro ws c h
    rw [filterStep, List.range_succ_eq_map]
    simp only [List.map_cons, List.flatten_cons, List.map_map]
    have htail :
        ((List.range n).map ((fun i => (workerChunk ws (i * c) c).filter f) ∘ Nat.succ)).flatten
          = filterStep f (ws.drop c) c n := by
      rw [filterStep]
      congr 1
      apply List.map_congr_left
      intro i _
      simp only [Function.comp_apply]
      rw [show Nat.succ i = i + 1 from rfl, workerChunk_succ_mul]
    have hmul : (n + 1) * c = n * c + c := by ring
    rw [htail, ih (ws.drop c) c (by simp only [List.length_drop]; omega)]
    rw [Nat.zero_mul, workerChunk_zero]
    rw [← List.filter_append, List.take_append_drop]

theorem getD_append_left {V : Type} (pre post : List V) (a : Nat) (d : V)
    (h : a < pre.length) : (pre ++ post).getD a d = pre.getD a d := by
  simp [List.getD_eq_getElem?_getD, List.getElem?_append_left h]

theorem getD_append_length {V : Type} (pre rest : List V) (v : V) (d : V) :
    (pre ++ v :: rest).getD pre.length d = v := by
  simp [List.getD_eq_getElem?_getD, List.getElem?_append_right (Nat.le_refl pre.length)]

theorem set_append_length {V : Type} (pre rest : List V) (v x : V) :
    (pre ++ v :: rest).set pre.length x = pre ++ x :: rest := by
  induction pre with
  | nil => simp
  | cons p ps ih => simp [List.set, ih]

theorem materializeStep_not_clone (input acc : List T) (opt : Opt)
    (h : opt ∉ cloneCat) : materializeStep input acc opt = acc := by
  cases opt <;> simp [cloneCat] at h ⊢ <;> rfl

theorem foldl_materialize_no_clone (input : List T) (l : List Opt) (acc : List T)
    (h : ∀ o ∈ l, o ∉ cloneCat) : l.foldl (materializeStep input) acc = acc := by
  induction l generalizing acc with
  | nil => rfl
  | cons o rest ih =>
    rw [List.foldl_cons, materializeStep_not_clone input acc o (h o (by simp))]
    exact ih acc (fun x hx => h x (by simp [hx]))

theorem foldl_materialize_clone (input : List T) (l : List Opt) (acc : List T)
    (h : ∃ o ∈ l, o ∈ cloneCat) : l.foldl (materializeStep input) acc = input := by
  induction l generalizing acc with
  | nil => simp at h
  | cons o rest ih =>
    by_cases hr : ∃ x ∈ rest, x ∈ cloneCat
    · rw [List.foldl_cons]
      exact ih _ hr
    · push_neg at hr
      have ho : o ∈ cloneCat := by
        obtain ⟨x, hx, hxc⟩ := h
        rcases List.mem_cons.mp hx with hxo | hxr
        · exact hxo ▸ hxc
        · exact absurd hxc (hr x hxr)
      have hstep : materializeStep input acc o = input := by
        have ho2 : o = Opt_NoCopy ∨ o = Opt_Clone ∨ o = Opt_DPC := by
          simpa [cloneCat] using ho
        rcases ho2 with rfl | rfl | rfl <;> rfl
      rw [List.foldl_cons, hstep]
      exact foldl_materialize_no_clone input rest input hr

theorem resolveCloneDefault_has_clone (k : Bool) (opts : List Opt) :
    ∃ o ∈ resolveCloneDefault k opts, o ∈ cloneCat := by
  unfold resolveCloneDefault
  by_cases hex :
      (opts.contains Opt_DPC || opts.contains Opt_NoCopy || opts.contains Opt_Clone) = true
  · rw [if_pos hex]
    rcases Bool.or_eq_true _ _ |>.mp hex with h | h
    · rcases Bool.or_eq_true _ _ |>.mp h with h1 | h1
      · exact ⟨Opt_DPC, List.elem_iff.mp h1, by simp [cloneCat]⟩
      · exact ⟨Opt_NoCopy, List.elem_iff.mp h1, by simp [cloneCat]⟩
    · exact ⟨Opt_Clone, List.elem_iff.mp h, by simp [cloneCat]⟩
  · rw [if_neg hex]
    refine ⟨if k then Opt_Clone else Opt_NoCopy, by simp, ?_⟩
    cases k <;> simp [cloneCat]

/-- Under the value model the materialized working set is always value-equal
to the input, whichever clone policy was resolved. -/
theorem materialize_resolved (k : Bool) (options : List Opt) (input : List T) :
    materialize (resolveCloneDefault k options) input = input :=
  foldl_materialize_clone input _ [] (resolveCloneDefault_has_clone k options)

theorem removeFirstReduce_no_reduce (l : List Order)
    (h : ∀ o ∈ l, o.method ≠ "reduce") : removeFirstReduce l = (l, none) := by
  induction l with
  | nil => rfl
  | cons o rest ih =>
    rw [removeFirstReduce, if_neg (h o (by simp)), ih (fun x hx => h x (by simp [hx]))]

theorem removeFirstReduce_append (pre post : List Order) (r : Order)
    (hr : r.method = "reduce") (hpre : ∀ o ∈ pre, o.method ≠ "reduce") :
    removeFirstReduce (pre ++ r :: post) = (pre ++ post, some r) := by
  induction pre with
  | nil => simp [removeFirstReduce, hr]
  | cons o rest ih =>
    rw [List.cons_append, removeFirstReduce, if_neg (hpre o (by simp)),
      ih (fun x hx => hpre x (by simp [hx]))]
    rfl

theorem moveReduceLast_no_reduce (l : List Order)
    (h : ∀ o ∈ l, o.method ≠ "reduce") : moveReduceLast l = l := by
  rw [moveReduceLast, removeFirstReduce_no_reduce l h]

theorem moveReduceLast_single (pre post : List Order) (r : Order)
    (hr : r.method = "reduce") (hpre : ∀ o ∈ pre, o.method ≠ "reduce") :
    moveReduceLast (pre ++ r :: post) = pre ++ post ++ [r] := by
  rw [moveReduceLast, removeFirstReduce_append pre post r hr hpre]

theorem removeFirstReduce_perm (l : List Order) :
    ∀ l' o, removeFirstReduce l = (l', some o) → (l' ++ [o]).Perm l := by
  induction l with
  | nil => intro l' o h; simp [removeFirstReduce] at h
  | cons a rest ih =>
    intro l' o h
    rw [removeFirstReduce] at h
    by_cases ha : a.method = "reduce"
    · rw [if_pos ha] at h
      injection h with h1 h2
      injection h2 with h2
      subst h1
      subst h2
      exact List.perm_append_singleton _ _
    · rw [if_neg ha] at h
      cases hrm : removeFirstReduce rest with
      | mk l₂ o₂ =>
        rw [hrm] at h
        simp only at h
        injection h with h1 h2
        subst h1
        subst h2
        exact (ih l₂ o hrm).cons a

theorem moveReduceLast_perm (l : List Order) : (moveReduceLast l).Perm l := by
  rw [moveReduceLast]
  cases hrm : removeFirstReduce l with
  | mk l' oo =>
    cases oo with
    | none => exact List.Perm.refl l
    | some o => exact removeFirstReduce_perm l l' o hrm

theorem applyReposition_fields (p : Pipeline T) :
    (applyReposition p).filterInstructs = p.filterInstructs ∧
    (applyReposition p).foreachInstructs = p.foreachInstructs ∧
    (applyReposition p).mapInstructs = p.mapInstructs ∧
    (applyReposition p).reduceInstruct = p.reduceInstruct ∧
    (applyReposition p).skipCounts = p.skipCounts ∧
    (applyReposition p).takeCounts = p.takeCounts := by
  unfold applyReposition
  split <;> exact ⟨rfl, rfl, rfl, rfl, rfl, rfl⟩

theorem applyReposition_orders_no_reduce (p : Pipeline T)
    (h : ∀ o ∈ p.orders, o.method ≠ "reduce") :
    (applyReposition p).orders = p.orders := by
  unfold applyReposition
  split
  · exact moveReduceLast_no_reduce p.orders h
  · rfl

theorem stepOrder_skip (p : Pipeline T) (nw : Nat) (o : Order) (ws : List T)
    (h : o.method = "skip") :
    stepOrder p nw o ws = (skipStep (p.skipCounts.getD o.index 0) ws, false) := by
  simp [stepOrder, h]

theorem stepOrder_take (p : Pipeline T) (nw : Nat) (o : Order) (ws : List T)
    (h : o.method = "take") :
    stepOrder p nw o ws = (takeStep (p.takeCounts.getD o.index 0) ws, false) := by
  simp [stepOrder, h]

theorem stepOrder_reduce_nil (p : Pipeline T) (nw : Nat) (o : Order) (f : T → T → T)
    (h : o.method = "reduce") (hf : p.reduceInstruct = some f) :
    stepOrder p nw o [] = ([], true) := by
  simp [stepOrder, h, hf]

theorem stepOrder_reduce_cons (p : Pipeline T) (nw : Nat) (o : Order) (f : T → T → T)
    (a : T) (l : List T) (h : o.method = "reduce") (hf : p.reduceInstruct = some f) :
    stepOrder p nw o (a :: l) = ([l.foldl f a], false) := by
  simp [stepOrder, h, hf]

theorem stepOrder_not_reduce (p : Pipeline T) (nw : Nat) (o : Order) (ws : List T)
    (h : o.method ≠ "reduce") : (stepOrder p nw o ws).2 = false := by
  unfold stepOrder
  split_ifs <;> simp_all

/-- The working set threaded through a list of orders, ignoring traces and
early exits (which cannot occur on reduce-free lists). -/
def foldOrders (p : Pipeline T) (nw : Nat) (l : List Order) (ws : List T) : List T :=
  l.foldl (fun w o => (stepOrder p nw o w).1) ws

theorem runOrders_no_reduce (p : Pipeline T) (nw : Nat) (l : List Order) (ws : List T)
    (h : ∀ o ∈ l, o.method ≠ "reduce") :
    runOrders p nw l ws = (foldOrders p nw l ws, l, false) := by
  induction l generalizing ws with
  | nil => rfl
  | cons o rest ih =>
    rw [runOrders]
    rw [if_neg (by rw [stepOrder_not_reduce p nw o ws (h o (by simp))]; exact Bool.false_ne_true)]
    rw [ih _ (fun x hx => h x (by simp [hx]))]
    rfl

theorem runOrders_append_no_reduce (p : Pipeline T) (nw : Nat) (l₁ l₂ : List Order)
    (ws : List T) (h : ∀ o ∈ l₁, o.method ≠ "reduce") :
    runOrders p nw (l₁ ++ l₂) ws =
      ((runOrders p nw l₂ (foldOrders p nw l₁ ws)).1,
       l₁ ++ (runOrders p nw l₂ (foldOrders p nw l₁ ws)).2.1,
       (runOrders p nw l₂ (foldOrders p nw l₁ ws)).2.2) := by
  induction l₁ generalizing ws with
  | nil => simp [foldOrders]
  | cons o rest ih =>
    rw [List.cons_append, runOrders]
    rw [if_neg (by rw [stepOrder_not_reduce p nw o ws (h o (by simp))]; exact Bool.false_ne_true)]
    rw [ih _ (fun x hx => h x (by simp [hx]))]
    rfl

/-- `Apply` once the empty-input and option-validation guards have passed:
the normal-form result in terms of the embedded sub-steps. -/
theorem apply_not_validated (p : Pipeline T) (k : Bool) (input : List T)
    (options : List Opt) (np : Nat) (h1 : input ≠ [])
    (h2 : hasMultipleOpts options cloneCat = false)
    (h3 : hasMultipleOpts options powerCat = false) :
    p.Apply k input options np =
      (.ok (runOrders (applyReposition p) (numWorkers np (resolveCloneDefault k options))
              (applyReposition p).orders
              (materialize (resolveCloneDefault k options) input)).1,
       (if (runOrders (applyReposition p) (numWorkers np (resolveCloneDefault k options))
              (applyReposition p).orders
              (materialize (resolveCloneDefault k options) input)).2.2 = false
           ∧ (resolveCloneDefault k options).contains Opt_Reset
        then resetPipeline (applyReposition p) else applyReposition p),
       (runOrders (applyReposition p) (numWorkers np (resolveCloneDefault k options))
           (applyReposition p).orders
           (materialize (resolveCloneDefault k options) input)).2.1) := by
  have hlen : ¬ input.length < 1 := by
    have : input.length ≠ 0 := by simpa using h1
    omega
  unfold Pipeline.Apply
  rw [if_neg hlen, if_neg (by simp [h2]), if_neg (by simp [h3])]

theorem hasMultipleOpts_nil (targets : List Opt) : hasMultipleOpts [] targets = false := by
  unfold hasMultipleOpts
  have h0 : targets.countP (fun t => ([] : List Opt).contains t) = 0 :=
    List.countP_eq_zero.mpr (fun a _ => by simp [List.contains])
  rw [h0]
  rfl

theorem runOrders_single_skip (p : Pipeline T) (nw idx : Nat) (cs : List String)
    (ws : List T) :
    runOrders p nw [⟨"skip", idx, cs⟩] ws =
      (skipStep (p.skipCounts.getD idx 0) ws, [⟨"skip", idx, cs⟩], false) := by
  rw [runOrders, stepOrder_skip p nw _ ws rfl]
  simp [runOrders]

theorem runOrders_single_reduce_trace (p : Pipeline T) (nw : Nat) (o : Order)
    (f : T → T → T) (ws : List T) (h1 : o.method = "reduce")
    (h2 : p.reduceInstruct = some f) : (runOrders p nw [o] ws).2.1 = [o] := by
  cases ws with
  | nil =>
    rw [runOrders, stepOrder_reduce_nil p nw o f h1 h2]
    simp [runOrders]
  | cons a l =>
    rw [runOrders, stepOrder_reduce_cons p nw o f a l h1 h2]
    simp [runOrders]

theorem applyReposition_single_reduce (p : Pipeline T) (f : T → T → T)
    (pre post : List Order) (r : Order) (hf : p.reduceInstruct = some f)
    (ho : p.orders = pre ++ r :: post) (hr : r.method = "reduce")
    (hpre : ∀ o ∈ pre, o.method ≠ "reduce")
    (hpost : ∀ o ∈ post, o.method ≠ "reduce") :
    (applyReposition p).orders = (pre ++ post) ++ [r] := by
  unfold applyReposition
  cases post with
  | nil =>
    rw [if_neg]
    · simp [ho]
    · intro hcond
      apply hcond.2
      rw [ho, List.getLast?_append_cons]
      simp [hr]
  | cons q qs =>
    rw [if_pos]
    · show moveReduceLast p.orders = _
      rw [ho, moveReduceLast_single pre (q :: qs) r hr hpre]
    · constructor
      · rw [hf]; rfl
      · rw [ho, List.getLast?_append_cons,
          show r :: q :: qs = [r] ++ q :: qs from rfl, List.getLast?_append_cons,
          List.getLast?_eq_getLast_of_ne_nil (List.cons_ne_nil q qs)]
        intro hcontra
        have hmem : (q :: qs).getLast (List.cons_ne_nil q qs) ∈ q :: qs :=
          List.getLast_mem _
        have : ((q :: qs).getLast (List.cons_ne_nil q qs)).method = "reduce" := by
          simpa using hcontra
        exact hpost _ hmem this

theorem hasMultipleOpts_false_of_unique (opts : List Opt) (x y z : Opt)
    (hxy : x ≠ y) (hxz : x ≠ z) (hyz : y ≠ z)
    (h : ∀ a ∈ opts, ∀ b ∈ opts,
      a ∈ ([x, y, z] : List Opt) → b ∈ ([x, y, z] : List Opt) → a = b) :
    hasMultipleOpts opts [x, y, z] = false := by
  unfold hasMultipleOpts
  by_cases hx : opts.contains x = true <;> by_cases hy : opts.contains y = true <;>
    by_cases hz : opts.contains z = true
  · exact absurd (h x (List.elem_iff.mp hx) y (List.elem_iff.mp hy) (by simp) (by simp)) hxy
  · exact absurd (h x (List.elem_iff.mp hx) y (List.elem_iff.mp hy) (by simp) (by simp)) hxy
  · exact absurd (h x (List.elem_iff.mp hx) z (List.elem_iff.mp hz) (by simp) (by simp)) hxz
  · simp only [List.elem_iff] at hx hy hz
    simp [hx, hy, hz]
  · exact absurd (h y (List.elem_iff.mp hy) z (List.elem_iff.mp hz) (by simp) (by simp)) hyz
  · simp only [List.elem_iff] at hx hy hz
    simp [hx, hy, hz]
  · simp only [List.elem_iff] at hx hy hz
    simp [hx, hy, hz]
  · simp only [List.elem_iff] at hx hy hz
    simp [hx, hy, hz]

theorem mapMutateStore_cons {V : Type} (g : V → V) (a : Nat) (as : List Nat)
    (s : List V) (dflt : V) :
    mapMutateStore g (a :: as) s dflt
      = mapMutateStore g as (s.set a (g (s.getD a dflt))) dflt := rfl

theorem mapMutateStore_region {V : Type} (g : V → V) (dflt : V) :
    ∀ (post pre : List V),
      mapMutateStore g ((List.range post.length).map (fun i => pre.length + i))
          (pre ++ post) dflt
        = pre ++ post.map g := by
  intro post
  induction post with
  | nil =>
    intro pre
    simp [mapMutateStore]
  | cons v rest ih =>
    intro pre
    rw [List.length_cons, List.range_succ_eq_map]
    simp only [List.map_cons, List.map_map]
    rw [mapMutateStore_cons, Nat.add_zero, getD_append_length, set_append_length]
    have hfun :
        ((List.range rest.length).map ((fun i => pre.length + i) ∘ Nat.succ))
          = (List.range rest.length).map (fun i => (pre ++ [g v]).length + i) := by
      apply List.map_congr_left
      intro i _
      simp only [Function.comp_apply, List.length_append, List.length_cons,
        List.length_nil]
      omega
    have hassoc : pre ++ g v :: rest = (pre ++ [g v]) ++ rest := by simp
    rw [hassoc, hfun, ih (pre ++ [g v])]
    simp

theorem readRefs_region {V : Type} (dflt : V) :
    ∀ (post pre : List V),
      readRefs (pre ++ post) ((List.range post.length).map (fun i => pre.length + i)) dflt
        = post := by
  intro post
  induction post with
  | nil =>
    intro pre
    simp [readRefs]
  | cons v rest ih =>
    intro pre
    rw [List.length_cons, List.range_succ_eq_map]
    simp only [readRefs, List.map_cons, List.map_map]
    congr 1
    · rw [Nat.add_zero, getD_append_length]
    · have hix : ∀ i ∈ List.range rest.length,
          ((fun a => (pre ++ v :: rest).getD a dflt) ∘ ((fun i => pre.length + i) ∘ Nat.succ)) i
            = (fun a => ((pre ++ [v]) ++ rest).getD a dflt) ((pre ++ [v]).length + i) := by
        intro i _
        have hidx : pre.length + Nat.succ i = (pre ++ [v]).length + i := by
          simp only [List.length_append, List.length_cons, List.length_nil]
          omega
        simp only [Function.comp_apply]
        rw [hidx, show pre ++ v :: rest = (pre ++ [v]) ++ rest by simp]
      rw [List.map_congr_left hix]
      have h2 := ih (pre ++ [v])
      simpa [readRefs, List.map_map] using h2

/-! ## Theorems about the claims -/

/-- C8: executing `Skip(n)` with `n` equal to the current working-set length
yields the empty working set, and `Take(n)` with `n` equal to the length
yields the whole working set unchanged. -/
theorem skip_take_at_length (ws : List T) :
    skipStep (ws.length : Int) ws = [] ∧ takeStep (ws.length : Int) ws = ws := by
  constructor
  · simp [skipStep]
  · simp [takeStep]

/-- C9: calling `Apply` with an empty input slice returns the
"empty input slice" error and no working set, leaves the pipeline exactly as
it was (no Step-0 repositioning, no reset), and executes no instruction (the
trace is empty) — for every pipeline and every option list. -/
theorem apply_empty_input (p : Pipeline T) (k : Bool) (opts : List Opt) (np : Nat) :
    p.Apply k [] opts np = (.error "empty input slice", p, []) := by
  simp [Pipeline.Apply]

/-- C4: the chunked parallel filter (per-chunk kept-lists concatenated in
worker-index order) with the code's chunk size `ceil(len / numWorkers)`
produces exactly the sequential left-to-right filter of the working set, for
every working set, predicate and worker count `n ≥ 1`. -/
theorem filterStep_eq_sequential (f : T → Bool) (ws : List T) (n : Nat) (h : 1 ≤ n) :
    filterStep f ws ((ws.length + n - 1) / n) n = ws.filter f :=
  filterStep_eq_filter f n ws _ (le_mul_ceilDiv ws.length n h)

/-- C1 counterexample: on the code under verification an out-of-range
`Skip(4)` over `[1,2,3]` makes `Apply` return `ok []`, and an out-of-range
`Take(5)` returns the whole working set with no error — there is no range
error and the remaining instruction sequence is not aborted, contradicting
the claim as stated. -/
theorem skip_take_out_of_range_no_error_cex :
    ((((emptyPipeline : Pipeline Nat).Skip 4).1).Apply false [1, 2, 3] [] 4).1
        = Except.ok []
      ∧ ((((emptyPipeline : Pipeline Nat).Take 5).1).Apply false [1, 2, 3] [] 4).1
        = Except.ok [1, 2, 3] :=
  ⟨rfl, rfl⟩

/-- C1 amended: when `n` exceeds the working-set length at execution time,
`Skip(n)` silently clamps to the empty working set and `Take(n)` leaves the
whole working set; `Apply` reports no error and continues (shown for a
pipeline holding such a skip instruction: the call succeeds with `ok []`). -/
theorem skip_take_out_of_range_clamps (ws : List T) (n : Int)
    (h : (ws.length : Int) < n) :
    skipStep n ws = [] ∧ takeStep n ws = ws ∧
      (∀ (p : Pipeline T) (idx : Nat) (cs : List String) (k : Bool) (np : Nat),
        ws ≠ [] → p.orders = [⟨"skip", idx, cs⟩] → p.skipCounts.getD idx 0 = n →
        (p.Apply k ws [] np).1 = .ok []) := by
  have hskip : skipStep n ws = [] := by
    simp only [skipStep, if_pos (by omega : n > (ws.length : Int))]
  refine ⟨hskip, ?_, ?_⟩
  · simp only [takeStep, if_neg (by omega : ¬ n < (ws.length : Int))]
  · intro p idx cs k np hne ho hn
    rw [apply_not_validated p k ws [] np hne (hasMultipleOpts_nil _) (hasMultipleOpts_nil _)]
    have hor : (applyReposition p).orders = p.orders :=
      applyReposition_orders_no_reduce p
        (by rw [ho]; intro o hmem; simp at hmem; subst hmem; simp)
    have hsk : (applyReposition p).skipCounts = p.skipCounts :=
      (applyReposition_fields p).2.2.2.2.1
    simp only [hor, ho, materialize_resolved, runOrders_single_skip, hsk, hn, hskip]

/-- Witness for the C1 amended theorem at a concrete input. -/
theorem skip_take_out_of_range_clamps_witness :
    skipStep 4 ([1, 2, 3] : List Nat) = [] ∧ takeStep 4 ([1, 2, 3] : List Nat) = [1, 2, 3]
      ∧ ((((emptyPipeline : Pipeline Nat).Skip 4).1).Apply false [1, 2, 3] [] 6).1
        = .ok [] := by
  have h := skip_take_out_of_range_clamps ([1, 2, 3] : List Nat) 4 (by decide)
  exact ⟨h.1, h.2.1,
    h.2.2 ((emptyPipeline : Pipeline Nat).Skip 4).1 0 ["skip(4)"] false 6
      (by decide) rfl rfl⟩

/-- C2 counterexample: with a `Filter` that removes every element followed by
a registered `Reduce`, `Apply` on `[1,2,3]` returns `ok []` — an empty
working set with a nil error — rather than failing with an explicit error as
the claim states. -/
theorem reduce_on_empty_no_error_cex :
    (((((emptyPipeline : Pipeline Nat).Filter (fun _ => false)).Reduce
          (fun a v => a + v)).1).Apply false [1, 2, 3] [] 4).1 = Except.ok [] :=
  rfl

/-- C2 amended: when the working set is empty at the point the `Reduce`
instruction executes, `Apply` early-returns `[]T{}` with a nil error — an
ok-empty result, skipping any remaining processing — instead of failing. -/
theorem reduce_on_empty_returns_ok_empty (p : Pipeline T) (nw : Nat) (o : Order)
    (rest : List Order) (f : T → T → T) (h1 : o.method = "reduce")
    (h2 : p.reduceInstruct = some f) :
    runOrders p nw (o :: rest) [] = ([], [o], true) := by
  rw [runOrders, stepOrder_reduce_nil p nw o f h1 h2]
  simp

/-- Witness for the C2 amended theorem at a concrete input. -/
theorem reduce_on_empty_returns_ok_empty_witness :
    runOrders (((emptyPipeline : Pipeline Nat).Reduce (fun a v => a + v)).1) 4
        [⟨"reduce", 0, []⟩, ⟨"take", 0, []⟩] ([] : List Nat)
      = ([], [⟨"reduce", 0, []⟩], true) :=
  reduce_on_empty_returns_ok_empty _ 4 ⟨"reduce", 0, []⟩ [⟨"take", 0, []⟩]
    (fun a v => a + v) rfl rfl

/-- C5 counterexample: the claim quantifies over every input sequence, but an
empty-pipeline `Apply` on the empty input returns the "empty input slice"
error instead of succeeding with a value-equal output. -/
theorem no_instructions_empty_input_cex :
    ((emptyPipeline : Pipeline Nat).Apply false [] [] 4).1
      = Except.error "empty input slice" :=
  rfl

/-- C5 amended: for every non-empty input and every pipeline with no
registered instructions, `Apply` succeeds and returns a sequence equal in
value to the input under the resolved clone policy. -/
theorem no_instructions_identity (p : Pipeline T) (input : List T) (k : Bool)
    (np : Nat) (h1 : p.orders = []) (h2 : input ≠ []) :
    (p.Apply k input [] np).1 = .ok input := by
  rw [apply_not_validated p k input [] np h2 (hasMultipleOpts_nil _) (hasMultipleOpts_nil _)]
  have hor : (applyReposition p).orders = [] := by
    rw [applyReposition_orders_no_reduce p (fun o hmem => absurd hmem (by simp [h1])), h1]
  rw [hor, materialize_resolved]
  simp [runOrders]

/-- Witness for the C5 amended theorem at a concrete input. -/
theorem no_instructions_identity_witness :
    ((emptyPipeline : Pipeline Nat).Apply false [5, 6] [] 4).1 = .ok [5, 6] :=
  no_instructions_identity emptyPipeline [5, 6] false 4 rfl (by decide)

/-- C3: with a registered `Reduce` combiner and the single `"reduce"` entry
somewhere in the declaration-ordered list, Step 0 of `Apply` moves it to the
end, preserving the relative order of all other entries (a no-op when it is
already last), and on every non-empty input the executed-instruction trace of
`Apply` is exactly the other instructions in declaration order followed by
the reduce — so e.g. a Map registered after Reduce still runs before the
fold. -/
theorem reduce_always_last (p : Pipeline T) (f : T → T → T) (pre post : List Order)
    (r : Order) (input : List T) (hf : p.reduceInstruct = some f)
    (ho : p.orders = pre ++ r :: post) (hr : r.method = "reduce")
    (hpre : ∀ o ∈ pre, o.method ≠ "reduce")
    (hpost : ∀ o ∈ post, o.method ≠ "reduce") (hin : input ≠ []) :
    (applyReposition p).orders = (pre ++ post) ++ [r] ∧
      ∀ (k : Bool) (np : Nat), (p.Apply k input [] np).2.2 = (pre ++ post) ++ [r] := by
  have hrepos := applyReposition_single_reduce p f pre post r hf ho hr hpre hpost
  refine ⟨hrepos, ?_⟩
  intro k np
  rw [apply_not_validated p k input [] np hin (hasMultipleOpts_nil _) (hasMultipleOpts_nil _)]
  have hfr : (applyReposition p).reduceInstruct = some f := by
    rw [(applyReposition_fields p).2.2.2.1, hf]
  simp only [hrepos]
  rw [runOrders_append_no_reduce (applyReposition p) _ (pre ++ post) [r] _
    (by
      intro o hmem
      rcases List.mem_append.mp hmem with hm | hm
      · exact hpre o hm
      · exact hpost o hm)]
  simp only []
  rw [runOrders_single_reduce_trace (applyReposition p) _ r f _ hr hfr]

/-- Witness for C3 at a concrete pipeline (Reduce declared first, then Map)
and input. -/
theorem reduce_always_last_witness :
    (applyReposition ((((emptyPipeline : Pipeline Nat).Reduce (fun a v => a + v)).1).Map
          (fun _ v => v))).orders
        = [⟨"map", 0, []⟩, ⟨"reduce", 0, []⟩] ∧
      (((((emptyPipeline : Pipeline Nat).Reduce (fun a v => a + v)).1).Map
            (fun _ v => v)).Apply false [1, 2] [] 4).2.2
        = [⟨"map", 0, []⟩, ⟨"reduce", 0, []⟩] := by
  have h := reduce_always_last
    ((((emptyPipeline : Pipeline Nat).Reduce (fun a v => a + v)).1).Map (fun _ v => v))
    (fun a v => a + v) [] [⟨"map", 0, []⟩] ⟨"reduce", 0, []⟩ [1, 2]
    rfl rfl rfl (by intro o hmem; simp at hmem) (by intro o hmem; simp at hmem; simp [hmem])
    (by decide)
  exact ⟨h.1, h.2 false 4⟩

/-- C7 counterexample: `Apply` with two conflicting clone flags reports the
validation error, but the pipeline's order list is NOT left exactly as it was
— Step 0 has already moved the reduce entry to the end before option
validation runs (a pipeline declared Reduce-then-Map comes back
Map-then-Reduce). -/
theorem validation_error_mutates_orders_cex :
    (((((emptyPipeline : Pipeline Nat).Reduce (fun a v => a + v)).1).Map
          (fun _ v => v)).Apply false [1] [Opt_NoCopy, Opt_Clone] 4).1
        = Except.error "cannot invoke multiple cloning options"
      ∧ (((((emptyPipeline : Pipeline Nat).Reduce (fun a v => a + v)).1).Map
            (fun _ v => v)).Apply false [1] [Opt_NoCopy, Opt_Clone] 4).2.1.orders
        ≠ ((((emptyPipeline : Pipeline Nat).Reduce (fun a v => a + v)).1).Map
            (fun _ v => v)).orders :=
  ⟨rfl, by decide⟩

/-- C7 amended: registration validation errors (`Skip`/`Take` with `n < 1`, a
second `Reduce`) are reported by the violating call and leave the pipeline
state exactly unchanged; `Apply`'s option-validation errors are reported
without running any instruction, and they leave every per-kind instruction
list unchanged — but the order list may already have been permuted by Step 0
reduce repositioning (it is left equal to the repositioned list, a
permutation of the original). -/
theorem validation_errors_preserve_state (p : Pipeline T) (n : Int) (f : T → T → T)
    (c : List String) :
    (n < 1 → p.Skip n = (p, some ("Skip(" ++ toString n ++ "): No order submitted"))) ∧
    (n < 1 → p.Take n = (p, some ("Take(" ++ toString n ++ "): No order submitted"))) ∧
    (p.reduceInstruct.isSome = true →
      p.Reduce f c = (p, some "Reduce has already been set")) ∧
    (∀ (k : Bool) (input : List T) (options : List Opt) (np : Nat), input ≠ [] →
      hasMultipleOpts options cloneCat = true →
      p.Apply k input options np
        = (.error "cannot invoke multiple cloning options", applyReposition p, [])) ∧
    (∀ (k : Bool) (input : List T) (options : List Opt) (np : Nat), input ≠ [] →
      hasMultipleOpts options cloneCat = false →
      hasMultipleOpts options powerCat = true →
      p.Apply k input options np
        = (.error "cannot invoke multiple power throttling options", applyReposition p, [])) ∧
    ((applyReposition p).filterInstructs = p.filterInstructs ∧
     (applyReposition p).foreachInstructs = p.foreachInstructs ∧
     (applyReposition p).mapInstructs = p.mapInstructs ∧
     (applyReposition p).reduceInstruct = p.reduceInstruct ∧
     (applyReposition p).skipCounts = p.skipCounts ∧
     (applyReposition p).takeCounts = p.takeCounts ∧
     (applyReposition p).orders.Perm p.orders) := by
  refine ⟨?_, ?_, ?_, ?_, ?_, ?_⟩
  · intro h
    unfold Pipeline.Skip
    rw [if_pos h]
  · intro h
    unfold Pipeline.Take
    rw [if_pos h]
  · intro h
    unfold Pipeline.Reduce
    rw [if_pos h]
  · intro k input options np hin hm
    have hlen : ¬ input.length < 1 := by
      have : input.length ≠ 0 := by simpa using hin
      omega
    unfold Pipeline.Apply
    rw [if_neg hlen, if_pos (by simp [hm])]
  · intro k input options np hin hmc hmp
    have hlen : ¬ input.length < 1 := by
      have : input.length ≠ 0 := by simpa using hin
      omega
    unfold Pipeline.Apply
    rw [if_neg hlen, if_neg (by simp [hmc]), if_pos (by simp [hmp])]
  · obtain ⟨h1, h2, h3, h4, h5, h6⟩ := applyReposition_fields p
    refine ⟨h1, h2, h3, h4, h5, h6, ?_⟩
    unfold applyReposition
    split
    · exact moveReduceLast_perm p.orders
    · exact List.Perm.refl p.orders

/-- Witness for the C7 amended theorem at concrete inputs. -/
theorem validation_errors_preserve_state_witness :
    ((emptyPipeline : Pipeline Nat).Skip 0
        = (emptyPipeline, some "Skip(0): No order submitted")) ∧
    ((emptyPipeline : Pipeline Nat).Take 0
        = (emptyPipeline, some "Take(0): No order submitted")) ∧
    ((((emptyPipeline : Pipeline Nat).Reduce (fun a v => a + v)).1).Reduce
          (fun a v => a * v) []
        = ((((emptyPipeline : Pipeline Nat).Reduce (fun a v => a + v)).1),
           some "Reduce has already been set")) ∧
    ((emptyPipeline : Pipeline Nat).Apply false [1] [Opt_NoCopy, Opt_Clone] 4
        = (.error "cannot invoke multiple cloning options",
           applyReposition emptyPipeline, [])) ∧
    ((emptyPipeline : Pipeline Nat).Apply false [1] [Opt_Power25, Opt_Power75] 4
        = (.error "cannot invoke multiple power throttling options",
           applyReposition emptyPipeline, [])) := by
  have h1 := validation_errors_preserve_state (emptyPipeline : Pipeline Nat) 0
    (fun a v => a + v) []
  have h2 := validation_errors_preserve_state
    ((((emptyPipeline : Pipeline Nat).Reduce (fun a v => a + v)).1)) 0
    (fun a v => a * v) []
  exact ⟨h1.1 (by decide), h1.2.1 (by decide), h2.2.2.1 rfl,
    h1.2.2.2.1 false [1] [Opt_NoCopy, Opt_Clone] 4 (by decide) rfl,
    h1.2.2.2.2.1 false [1] [Opt_Power25, Opt_Power75] 4 (by decide) rfl rfl⟩

/-- C10: option validation rejects only two or more DISTINCT flags of one
category — an option list repeating the same clone-policy or the same
throttle flag, with no two different flags of a category, passes both
`hasMultipleOpts` checks and `Apply` proceeds normally (returning `ok` on
every non-empty input). -/
theorem duplicate_same_flag_passes_validation (options : List Opt)
    (h1 : ∀ a ∈ options, ∀ b ∈ options, a ∈ cloneCat → b ∈ cloneCat → a = b)
    (h2 : ∀ a ∈ options, ∀ b ∈ options, a ∈ powerCat → b ∈ powerCat → a = b) :
    hasMultipleOpts options cloneCat = false ∧
      hasMultipleOpts options powerCat = false ∧
      ∀ (p : Pipeline T) (k : Bool) (input : List T) (np : Nat), input ≠ [] →
        ∃ out, (p.Apply k input options np).1 = .ok out := by
  have hc : hasMultipleOpts options cloneCat = false :=
    hasMultipleOpts_false_of_unique options Opt_NoCopy Opt_Clone Opt_DPC
      (by decide) (by decide) (by decide) h1
  have hp : hasMultipleOpts options powerCat = false :=
    hasMultipleOpts_false_of_unique options Opt_Power25 Opt_Power50 Opt_Power75
      (by decide) (by decide) (by decide) h2
  refine ⟨hc, hp, ?_⟩
  intro p k input np hin
  rw [apply_not_validated p k input options np hin hc hp]
  exact ⟨_, rfl⟩

/-- Witness for C10: `Opt_Clone` and `Opt_Power50` each given twice still
pass validation and `Apply` succeeds. -/
theorem duplicate_same_flag_passes_validation_witness :
    hasMultipleOpts [Opt_Clone, Opt_Clone, Opt_Power50, Opt_Power50] cloneCat = false ∧
      hasMultipleOpts [Opt_Clone, Opt_Clone, Opt_Power50, Opt_Power50] powerCat = false ∧
      ∃ out,
        (((emptyPipeline : Pipeline Nat).Skip 2).1.Apply false [1, 2, 3]
            [Opt_Clone, Opt_Clone, Opt_Power50, Opt_Power50] 4).1 = .ok out := by
  have h := duplicate_same_flag_passes_validation (T := Nat)
    [Opt_Clone, Opt_Clone, Opt_Power50, Opt_Power50] (by decide) (by decide)
  exact ⟨h.1, h.2.1, h.2.2 ((emptyPipeline : Pipeline Nat).Skip 2).1 false [1, 2, 3] 4
    (by decide)⟩

/-- C6: under the structural-clone policy, in store semantics, a Map
transform that mutates the data behind its element touches only the freshly
cloned cells: every cell of the caller's store (in particular every cell the
input references point to) is unchanged after the run, while reading the
working-set references yields exactly the mutated values. -/
theorem structural_clone_no_input_mutation {V : Type} (store : List V)
    (input : List Nat) (g : V → V) (dflt : V) :
    (∀ a, a < store.length →
      (mapMutateStore g (cloneRefs store input dflt).2 (cloneRefs store input dflt).1
          dflt).getD a dflt
        = store.getD a dflt) ∧
    readRefs
        (mapMutateStore g (cloneRefs store input dflt).2 (cloneRefs store input dflt).1 dflt)
        (cloneRefs store input dflt).2 dflt
      = (readRefs store input dflt).map g := by
  have hlen : input.length = (readRefs store input dflt).length := by simp [readRefs]
  have hs2 : mapMutateStore g (cloneRefs store input dflt).2
      (cloneRefs store input dflt).1 dflt
      = store ++ (readRefs store input dflt).map g := by
    show mapMutateStore g ((List.range input.length).map (fun i => store.length + i))
        (store ++ readRefs store input dflt) dflt = _
    rw [hlen]
    exact mapMutateStore_region g dflt (readRefs store input dflt) store
  constructor
  · intro a ha
    rw [hs2, getD_append_left _ _ a dflt ha]
  · rw [hs2]
    show ((List.range input.length).map (fun i => store.length + i)).map _ = _
    have hlen2 : input.length = ((readRefs store input dflt).map g).length := by
      simp [readRefs]
    rw [hlen2]
    exact readRefs_region dflt ((readRefs store input dflt).map g) store

/-- Witness for C6 at a concrete store and input. -/
theorem structural_clone_no_input_mutation_witness :
    ((mapMutateStore (fun x => x + 1) (cloneRefs [10, 20] [0, 1] 0).2
          (cloneRefs [10, 20] [0, 1] 0).1 0).getD 0 0 = 10)
      ∧ readRefs
          (mapMutateStore (fun x => x + 1) (cloneRefs [10, 20] [0, 1] 0).2
            (cloneRefs [10, 20] [0, 1] 0).1 0)
          (cloneRefs [10, 20] [0, 1] 0).2 0
        = (readRefs [10, 20] [0, 1] 0).map (fun x => x + 1) :=
  ⟨(structural_clone_no_input_mutation [10, 20] [0, 1] (fun x => x + 1) 0).1 0 (by decide),
   (structural_clone_no_input_mutation [10, 20] [0, 1] (fun x => x + 1) 0).2⟩

/-- Witness for C4 at a concrete input: three workers over ten elements. -/
theorem filterStep_eq_sequential_witness :
    1 ≤ 3 ∧
      filterStep (fun v => v % 2 == 0) ([1, 2, 3, 4, 5, 6, 7, 8, 9, 10] : List Nat)
          ((([1, 2, 3, 4, 5, 6, 7, 8, 9, 10] : List Nat).length + 3 - 1) / 3) 3
        = ([1, 2, 3, 4, 5, 6, 7, 8, 9, 10] : List Nat).filter (fun v => v % 2 == 0) :=
  ⟨by decide, filterStep_eq_sequential (fun v => v % 2 == 0) _ 3 (by decide)⟩

end Derp
